import Mathlib

/-!
Verification of responsive-image-sizes.js (ryuran/responsive-image-widths).

Shallow embedding conventions:
- a JavaScript number that is produced by parseInt or by integer arithmetic is
  modelled as JsInt := Option Int, where none stands for NaN;
- a JavaScript number produced by parseFloat or float arithmetic is modelled as
  JsRat := Option Rat, where none stands for NaN;
- comparisons involving NaN are false, arithmetic involving NaN yields NaN,
  exactly as in JavaScript;
- the sparse array perfectWidthsTemp is modelled as an association list sorted
  by key in strictly increasing order, matching ascending index enumeration of
  JavaScript Array.prototype.map over a sparse array (holes are absent keys);
- fallible steps return Option.
-/

/-- JavaScript integer-valued number; none models NaN. -/
abbrev JsInt := Option Int

/-- JavaScript float-valued number; none models NaN. -/
abbrev JsRat := Option Rat

/-- JavaScript comparison a < b (false when an operand is NaN). -/
def jsLtB (a b : JsInt) : Bool :=
  match a, b with
  | some x, some y => decide (x < y)
  | _, _ => false

/-- JavaScript comparison a > b (false when an operand is NaN). -/
def jsGtB (a b : JsInt) : Bool :=
  match a, b with
  | some x, some y => decide (y < x)
  | _, _ => false

/-- JavaScript comparison a >= b (false when an operand is NaN). -/
def jsGeB (a b : JsInt) : Bool :=
  match a, b with
  | some x, some y => decide (y ≤ x)
  | _, _ => false

/-- JavaScript comparison a <= b (false when an operand is NaN). -/
def jsLeB (a b : JsInt) : Bool :=
  match a, b with
  | some x, some y => decide (x ≤ y)
  | _, _ => false

/-- JavaScript addition on integer-valued numbers; NaN absorbs. -/
def jsAdd (a b : JsInt) : JsInt :=
  match a, b with
  | some x, some y => some (x + y)
  | _, _ => none

/-- Numeric value of a decimal digit character. -/
def digitVal (c : Char) : Nat := c.toNat - 48

/-- Value of a list of decimal digit characters, most significant first. -/
def digitsToNat (l : List Char) : Nat := l.foldl (fun acc c => acc * 10 + digitVal c) 0

/-- Longest prefix of decimal digits. -/
def leadingDigits (l : List Char) : List Char := l.takeWhile Char.isDigit

/-- JavaScript parseInt(field, 10) on the characters of a CSV field: optional
minus sign followed by the longest prefix of decimal digits; NaN (none) when no
digit is found. -/
def parseIntJs (s : List Char) : JsInt :=
  match s with
  | '-' :: rest =>
    if leadingDigits rest = [] then none
    else some (-(digitsToNat (leadingDigits rest) : Int))
  | l =>
    if leadingDigits l = [] then none
    else some ((digitsToNat (leadingDigits l) : Int))

/-- Core of parseFloat: integer digits, optionally a dot and fraction digits;
NaN (none) when no digit is found at all. -/
def parseFloatCore (l : List Char) : JsRat :=
  let ip := leadingDigits l
  match l.drop ip.length with
  | '.' :: rest2 =>
    let fp := leadingDigits rest2
    if ip = [] ∧ fp = [] then none
    else some ((digitsToNat ip : Rat) + (digitsToNat fp : Rat) / ((10 : Rat) ^ fp.length))
  | _ => if ip = [] then none else some ((digitsToNat ip : Rat))

/-- JavaScript parseFloat on the characters of a CSV field (decimal notation,
optional sign). -/
def parseFloatJs (s : List Char) : JsRat :=
  match s with
  | '-' :: rest => (parseFloatCore rest).map (fun q => -q)
  | l => parseFloatCore l

/-- A parsed context row, after the cast callback of csvparse (line 190):
viewport and views through parseInt, density through parseFloat. -/
structure Context where
  viewport : JsInt
  density : JsRat
  views : JsInt
deriving DecidableEq

def emptyStr : String := ""

def newlineChar : Char := '\n'

def commaChar : Char := ','

/-- Splits a character list on a separator character; accumulator variant. -/
def splitOnCharAux (sep : Char) : List Char → List Char → List (List Char)
  | [], acc => [acc.reverse]
  | c :: rest, acc =>
    if c = sep then acc.reverse :: splitOnCharAux sep rest []
    else splitOnCharAux sep rest (c :: acc)

/-- Splits a character list on a separator character. -/
def splitOnChar (sep : Char) (l : List Char) : List (List Char) :=
  splitOnCharAux sep l []

/-- Line 184: csvHasHeader = contextsCsv.match of the regex for one ASCII
letter anywhere in the whole file content. -/
def csvHasHeader (s : String) : Bool := s.data.any (fun c => c.isAlpha)

/-- The raw records of the CSV content: lines split on newlines, empty lines
discarded, each line split on the delimiter. -/
def records (s : String) : List (List (List Char)) :=
  ((splitOnChar newlineChar s.data).filter (fun l => decide (l ≠ []))).map
    (splitOnChar commaChar)

/-- The cast callback of csvparse applied to one record: column 0 is viewport
(parseInt), column 1 is density (parseFloat), column 2 is views (parseInt). -/
def castRow (r : List (List Char)) : Context :=
  ⟨parseIntJs (r.getD 0 []), parseFloatJs (r.getD 1 []), parseIntJs (r.getD 2 [])⟩

/-- The from option of csvparse: keep the records whose 1-based index is at
least fro. -/
def csvRowsFrom (fro : Nat) (idx : Nat) :
    List (List (List Char)) → List (List (List Char))
  | [] => []
  | r :: rest =>
    if fro ≤ idx then r :: csvRowsFrom fro (idx + 1) rest
    else csvRowsFrom fro (idx + 1) rest

/-- Lines 187-197: parse the CSV content into context rows, starting at record
2 when a header was detected and at record 1 otherwise. -/
def contexts (s : String) : List Context :=
  (csvRowsFrom (if csvHasHeader s then 2 else 1) 1 (records s)).map castRow

/-- Lines 201-204: contexts.reduce keeping the smaller viewport, seeded with
the viewport of the first row; evaluates to none when the list is empty,
because reading the viewport of contexts[0] then throws. -/
def contextMinViewport (cs : List Context) : Option JsInt :=
  match cs with
  | [] => none
  | c :: rest =>
    some ((c :: rest).foldl (fun mn p => if jsLtB p.viewport mn then p.viewport else mn)
      c.viewport)

/-- Lines 205-208: contexts.reduce keeping the larger viewport. -/
def contextMaxViewport (cs : List Context) : Option JsInt :=
  match cs with
  | [] => none
  | c :: rest =>
    some ((c :: rest).foldl (fun mx p => if jsGtB p.viewport mx then p.viewport else mx)
      c.viewport)

/-- Lines 399-403: the step that should find the n best widths is an
unimplemented todo in the source; srcset is initialized to the empty array and
never filled, whatever the computed perfect widths and the requested count. -/
def srcset : List Int := []

/-- Exact ceiling of a rational number, the value Math.ceil returns on the
corresponding real; stated through floor division on the reduced fraction. -/
def ratCeil (q : Rat) : Int := -((-q.num).fdiv (q.den : Int))

/-- Array lookup imageWidths[v]: undefined (none) on a NaN index or when the
index was never assigned. -/
def jsLookup (iw : Int → Option Nat) (v : JsInt) : Option Nat :=
  match v with
  | some k => iw k
  | none => none

/-- JavaScript multiplication of a possibly-undefined element width by a
possibly-NaN density; undefined or NaN poisons the product to NaN. -/
def jsMulND (n : Option Nat) (d : JsRat) : JsRat :=
  match n, d with
  | some m, some q => some ((m : Rat) * q)
  | _, _ => none

/-- Math.ceil lifted to NaN-aware numbers. -/
def ceilJs (x : JsRat) : JsInt := x.map ratCeil

/-- Line 368: perfectWidth = Math.ceil(imageWidths[value.viewport] multiplied
by value.density). -/
def perfectWidth (iw : Int → Option Nat) (c : Context) : JsInt :=
  ceilJs (jsMulND (jsLookup iw c.viewport) c.density)

/-- Lines 369-372 for one sample: initialize the slot of the sparse array to 0
when undefined, then add value.views into it. Keys stay strictly ascending,
matching ascending index enumeration of the sparse array. -/
def bump (k : Int) (v : JsInt) : List (Int × JsInt) → List (Int × JsInt)
  | [] => [(k, jsAdd (some 0) v)]
  | (j, w) :: rest =>
    if k < j then (k, jsAdd (some 0) v) :: (j, w) :: rest
    else if k = j then (j, jsAdd w v) :: rest
    else (j, w) :: bump k v rest

/-- Accumulation state of lines 364-375: the sparse array perfectWidthsTemp
and the running totalViews. -/
structure HistState where
  perfectWidthsTemp : List (Int × JsInt)
  totalViews : JsInt
deriving DecidableEq

/-- Lines 366-375, body of the contexts.map callback: samples whose viewport
lies in the considered range have their views accumulated into the slot of
their perfect width (only when that width is a valid array index) and added to
totalViews; every other sample leaves the state untouched. -/
def histStep (iw : Int → Option Nat) (lo hi : JsInt) (st : HistState) (c : Context) :
    HistState :=
  if jsGeB c.viewport lo && jsLeB c.viewport hi then
    ⟨match perfectWidth iw c with
      | some k => if 0 ≤ k then bump k c.views st.perfectWidthsTemp
                  else st.perfectWidthsTemp
      | none => st.perfectWidthsTemp,
     jsAdd st.totalViews c.views⟩
  else st

/-- Lines 364-375: fold of the accumulation over all context samples. -/
def histStateOf (ctxs : List Context) (iw : Int → Option Nat) (lo hi : JsInt) :
    HistState :=
  ctxs.foldl (histStep iw lo hi) ⟨[], some 0⟩

/-- One entry of the perfectWidths array (lines 377-383). -/
structure Bucket where
  width : Int
  percentage : JsRat
deriving DecidableEq

/-- JavaScript division value / totalViews; NaN on NaN operands and on a zero
denominator (0/0 and x/0 are both collapsed into none). -/
def jsDivIR (a b : JsInt) : JsRat :=
  match a, b with
  | some x, some y => if y = 0 then none else some ((x : Rat) / (y : Rat))
  | _, _ => none

/-- Lines 377-383: perfectWidthsTemp.map over the sparse array, keeping index
order and skipping holes, turning accumulated views into percentages. -/
def perfectWidthsOf (st : HistState) : List Bucket :=
  st.perfectWidthsTemp.map (fun p => ⟨p.1, jsDivIR p.2 st.totalViews⟩)

/-- Comparator of lines 394-396, b.percentage - a.percentage, as the predicate
that x may stay before y in a stable sort: the comparator value on (x, y) is
at most zero; NaN comparator values keep the original order. -/
def bucketBefore (x y : Bucket) : Bool :=
  match x.percentage, y.percentage with
  | some p, some q => decide (q - p ≤ 0)
  | _, _ => true

/-- Stable insertion of one bucket into an already sorted list. -/
def insertBucket (x : Bucket) : List Bucket → List Bucket
  | [] => [x]
  | y :: ys => if bucketBefore x y then x :: y :: ys else y :: insertBucket x ys

/-- Lines 394-396: stable sort of perfectWidths by percentage in decreasing
order. -/
def sortBuckets : List Bucket → List Bucket
  | [] => []
  | x :: xs => insertBucket x (sortBuckets xs)

/-- Lines 364-397: the whole histogram-building step, from context samples and
the measured image widths to the sorted perfectWidths array. -/
def buildHistogram (ctxs : List Context) (iw : Int → Option Nat) (lo hi : JsInt) :
    List Bucket :=
  sortBuckets (perfectWidthsOf (histStateOf ctxs iw lo hi))

/-- A concrete measured profile: the image renders at the viewport width. -/
def idProfile : Int → Option Nat := fun w => some w.toNat

def c3ctxs : List Context := [⟨some 100, some 1, some 3⟩, ⟨some 200, some 1, some 7⟩]

def c4In : Context := ⟨some 150, some 1, some 4⟩

def c4Out : Context := ⟨some 500, some 2, some 9⟩

def c9ctxs : List Context := [⟨some 100, some 1, some 0⟩, ⟨some 200, some 1, some 5⟩]

def c6ctxs : List Context := [⟨some 120, some 2, some 5⟩, ⟨some 150, some 1, some 3⟩]

/-- Observable effects of one pipeline run, in program order. -/
inductive Event where
  | gotoPage : Event
  | logPageLoadError : Event
  | measureLoop : Event
  | writeVariations : Event
  | closeBrowser : Event
  | computeHistogram : Event
  | writeDestfile : Event
deriving DecidableEq

/-- Run configuration relevant to the control flow of the async main block. -/
structure RunArgs where
  gotoSucceeds : Bool
  hasVariationsfile : Bool
  hasDestfile : Bool

/-- Lines 259-426: page.goto with a then branch (measurement loop, optional
variations file) and a catch branch that only logs; afterwards the browser is
closed and step 3 plus the optional destfile write run unconditionally. -/
def runEvents (a : RunArgs) : List Event :=
  [Event.gotoPage]
    ++ (if a.gotoSucceeds then
          [Event.measureLoop]
            ++ (if a.hasVariationsfile then [Event.writeVariations] else [])
        else [Event.logPageLoadError])
    ++ [Event.closeBrowser, Event.computeHistogram]
    ++ (if a.hasDestfile then [Event.writeDestfile] else [])

def malformedCsv : String := "viewport,density,views\nabc,2,10"

/-- Lines 270-296, the measurement loop: starting at the current viewport
width, while it does not exceed maxViewport, measure the image width and store
it at the viewport width, then increment the width by one. The fuel argument
counts the remaining iterations; a failing measurement (selector that throws)
aborts the whole loop with none. -/
def imageWidthsGo (measure : Int → Option Nat) (w : Int) :
    Nat → Option (List (Int × Nat))
  | 0 => some []
  | n + 1 =>
    match measure w with
    | none => none
    | some iw => (imageWidthsGo measure (w + 1) n).map (fun rest => (w, iw) :: rest)

/-- Lines 245-296: the imageWidths array produced by the loop over viewport
widths from minViewport to maxViewport inclusive, as an association list from
viewport width to measured image width. -/
def imageWidths (measure : Int → Option Nat) (lo hi : Int) :
    Option (List (Int × Nat)) :=
  imageWidthsGo measure lo (hi + 1 - lo).toNat

/-- The contiguous integer range from lo to hi inclusive. -/
def intRange (lo hi : Int) : List Int :=
  (List.range (hi + 1 - lo).toNat).map (fun i : Nat => lo + (i : Int))

/-- The guard of line 367 with concrete integer bounds: the viewport of the
sample lies between lo and hi inclusive (false on a NaN viewport). -/
def inRange (lo hi : Int) (c : Context) : Bool :=
  jsGeB c.viewport (some lo) && jsLeB c.viewport (some hi)

/-- The views of a sample as a plain integer (0 for NaN; only used under
hypotheses that exclude NaN). -/
def viewsVal (c : Context) : Int := c.views.getD 0

/-- Total views over the samples inside the considered range. -/
def includedViews (ctxs : List Context) (lo hi : Int) : Int :=
  ((ctxs.filter (fun c => inRange lo hi c)).map viewsVal).sum

/-- Total views over the in-range samples whose perfect width is k. -/
def accViews (ctxs : List Context) (iw : Int → Option Nat) (lo hi : Int) (k : Int) :
    Int :=
  ((ctxs.filter
      (fun c => inRange lo hi c && decide (perfectWidth iw c = some k))).map
    viewsVal).sum

/-- Whether some in-range sample has perfect width k. -/
def hasContrib (ctxs : List Context) (iw : Int → Option Nat) (lo hi : Int) (k : Int) :
    Bool :=
  ctxs.any (fun c => inRange lo hi c && decide (perfectWidth iw c = some k))

/-- Lookup of a key in the association list modelling the sparse array. -/
def lookupW (k : Int) : List (Int × JsInt) → Option JsInt
  | [] => none
  | (j, v) :: rest => if k = j then some v else lookupW k rest

/-- Integer value currently stored at key k (0 when absent; only meaningful
under the all-values-present invariant). -/
def curVal (temp : List (Int × JsInt)) (k : Int) : Int :=
  ((lookupW k temp).getD (some 0)).getD 0

/-- Every stored value of the sparse array is an actual number, not NaN. -/
abbrev allSomeTemp (temp : List (Int × JsInt)) : Prop :=
  ∀ p ∈ temp, ∃ n : Int, p.2 = some n

/-- The keys of the sparse array are strictly increasing. -/
abbrev sortedKeys (temp : List (Int × JsInt)) : Prop :=
  List.Pairwise (fun p q => p.1 < q.1) temp

/-- Sum of the stored values of the sparse array. -/
def sumVals : List (Int × JsInt) → Int
  | [] => 0
  | p :: rest => p.2.getD 0 + sumVals rest

/-- A sample is clean for the accumulation: its views parsed to a number and
its perfect width is a number that is a valid array index. -/
abbrev CleanCtx (iw : Int → Option Nat) (c : Context) : Prop :=
  (c.views).isSome = true
    ∧ (perfectWidth iw c).isSome = true
    ∧ 0 ≤ (perfectWidth iw c).getD 0

/-- Claim C3, counterexample: on two samples with ideal widths 100 and 200 and
weights 0.3 and 0.7, the histogram step returns widths in the order
[200, 100], which is not ascending by idealWidth. -/
theorem c3_not_sorted_by_width :
    (buildHistogram c3ctxs idProfile (some 100) (some 200)).map Bucket.width
        = [200, 100]
      ∧ ¬ List.Pairwise (fun a b : Int => a ≤ b)
          ((buildHistogram c3ctxs idProfile (some 100) (some 200)).map Bucket.width) := by
  have he : buildHistogram c3ctxs idProfile (some 100) (some 200)
      = [⟨200, some (7/10)⟩, ⟨100, some (3/10)⟩] := by
    norm_num [buildHistogram, histStateOf, histStep, perfectWidth, jsLookup, idProfile,
      jsMulND, ceilJs, ratCeil, jsGeB, jsLeB, jsAdd, bump, perfectWidthsOf, jsDivIR,
      sortBuckets, insertBucket, bucketBefore, c3ctxs, List.foldl]
  rw [he]
  refine ⟨rfl, ?_⟩
  intro h
  simp only [List.map_cons, List.map_nil, List.pairwise_cons, List.mem_cons,
    List.not_mem_nil, or_false, List.mem_singleton] at h
  have := h.1 100 rfl
  omega

/-- Claim C4, counterexample: a sample whose viewport 500 lies outside the
considered range [100, 200] raises nothing; the histogram is computed as if
the sample were absent. -/
theorem c4_out_of_range_sample_ignored :
    buildHistogram [c4In, c4Out] idProfile (some 100) (some 200)
        = buildHistogram [c4In] idProfile (some 100) (some 200)
      ∧ buildHistogram [c4In, c4Out] idProfile (some 100) (some 200)
        = [⟨150, some 1⟩] := by
  have he : buildHistogram [c4In, c4Out] idProfile (some 100) (some 200)
      = [⟨150, some 1⟩] := by
    norm_num [buildHistogram, histStateOf, histStep, perfectWidth, jsLookup, idProfile,
      jsMulND, ceilJs, ratCeil, jsGeB, jsLeB, jsAdd, bump, perfectWidthsOf, jsDivIR,
      sortBuckets, insertBucket, bucketBefore, c4In, c4Out, List.foldl]
  have he2 : buildHistogram [c4In] idProfile (some 100) (some 200)
      = [⟨150, some 1⟩] := by
    norm_num [buildHistogram, histStateOf, histStep, perfectWidth, jsLookup, idProfile,
      jsMulND, ceilJs, ratCeil, jsGeB, jsLeB, jsAdd, bump, perfectWidthsOf, jsDivIR,
      sortBuckets, insertBucket, bucketBefore, c4In, List.foldl]
  exact ⟨he.trans he2.symm, he⟩

/-- Claim C9, counterexample: a sample with zero views still assigns its slot
in the sparse array, so a bucket with zero accumulated views (weight 0) does
appear in the output. -/
theorem c9_zero_views_bucket_present :
    buildHistogram c9ctxs idProfile (some 100) (some 200)
        = [⟨200, some 1⟩, ⟨100, some 0⟩]
      ∧ Bucket.mk 100 (some 0) ∈ buildHistogram c9ctxs idProfile (some 100) (some 200) := by
  have he : buildHistogram c9ctxs idProfile (some 100) (some 200)
      = [⟨200, some 1⟩, ⟨100, some 0⟩] := by
    norm_num [buildHistogram, histStateOf, histStep, perfectWidth, jsLookup, idProfile,
      jsMulND, ceilJs, ratCeil, jsGeB, jsLeB, jsAdd, bump, perfectWidthsOf, jsDivIR,
      sortBuckets, insertBucket, bucketBefore, c9ctxs, List.foldl]
  rw [he]
  exact ⟨rfl, by simp⟩

/-- Claim C1: the width-selection step is supposed to return up to n ascending
widths minimizing total weighted waste, in particular [200, 400] on the
scenario buckets with n = 2; in the code the step is a todo stub and srcset is
always the empty list, so no input can produce [200, 400]. -/
theorem c1_srcset_empty : srcset = ([] : List Int) ∧ srcset ≠ [200, 400] :=
  ⟨rfl, by decide⟩

/-- Claim C2, counterexample: in a run whose page load fails and whose destfile
option is set, the destfile write event still occurs, step 3 still runs, and
the failure is merely logged. -/
theorem c2_destfile_written_after_goto_failure :
    Event.writeDestfile ∈ runEvents ⟨false, false, true⟩
      ∧ Event.computeHistogram ∈ runEvents ⟨false, false, true⟩
      ∧ Event.logPageLoadError ∈ runEvents ⟨false, false, true⟩ := by
  decide

/-- Claim C2, amended: when the page load fails, the error is only logged; the
run continues into step 3, never runs the measurement loop, and still writes
the destfile whenever that option is set. -/
theorem c2_pipeline_continues_on_goto_failure (a : RunArgs)
    (h : a.gotoSucceeds = false) :
    Event.logPageLoadError ∈ runEvents a
      ∧ Event.computeHistogram ∈ runEvents a
      ∧ (a.hasDestfile = true → Event.writeDestfile ∈ runEvents a)
      ∧ Event.measureLoop ∉ runEvents a := by
  cases a with
  | mk g v d =>
    subst h
    cases v <;> cases d <;> decide

/-- Witness for c2_pipeline_continues_on_goto_failure at a concrete run. -/
theorem c2_pipeline_continues_witness :
    (RunArgs.mk false true true).gotoSucceeds = false
      ∧ (Event.logPageLoadError ∈ runEvents ⟨false, true, true⟩
          ∧ Event.computeHistogram ∈ runEvents ⟨false, true, true⟩
          ∧ ((RunArgs.mk false true true).hasDestfile = true →
              Event.writeDestfile ∈ runEvents ⟨false, true, true⟩)
          ∧ Event.measureLoop ∉ runEvents ⟨false, true, true⟩) :=
  ⟨rfl, c2_pipeline_continues_on_goto_failure ⟨false, true, true⟩ rfl⟩

/-- Claim C5, counterexample: a row whose viewport field does not parse as an
integer loads without any error; parseInt yields NaN and the row is kept. -/
theorem c5_malformed_row_loads :
    contexts malformedCsv = [⟨none, some 2, some 10⟩] := by
  decide

/-- Claim C5, amended: loading never raises a validation error. An empty input
yields an empty context list, and the run only fails afterwards, when the
viewport of contexts[0] is read while computing the minimum viewport; a row
that fails to parse is kept, its unparsable fields becoming NaN. -/
theorem c5_load_never_validates :
    contexts emptyStr = []
      ∧ contextMinViewport (contexts emptyStr) = none
      ∧ contexts malformedCsv = [⟨none, some 2, some 10⟩] := by
  refine ⟨by decide, by decide, by decide⟩

theorem csvRowsFrom_all (fro : Nat) :
    ∀ (rows : List (List (List Char))) (idx : Nat), fro ≤ idx →
      csvRowsFrom fro idx rows = rows := by
  intro rows
  induction rows with
  | nil => intro idx _; rfl
  | cons r rest ih =>
    intro idx h
    rw [csvRowsFrom, if_pos h, ih (idx + 1) (Nat.le_succ_of_le h)]

theorem csvRowsFrom_two (rows : List (List (List Char))) :
    csvRowsFrom 2 1 rows = rows.drop 1 := by
  cases rows with
  | nil => rfl
  | cons r rest =>
    rw [csvRowsFrom, if_neg (by decide), csvRowsFrom_all 2 rest 2 (le_refl 2)]
    rfl

/-- Claim C10: the context CSV is treated as having a header row exactly when
the whole file content contains at least one ASCII letter, in which case
parsing starts at record 2 (the first record is dropped even when it is valid
data); when no letter occurs anywhere, every record including the first is
parsed as a sample. -/
theorem c10_header_iff_letter (s : String) :
    (csvHasHeader s = true ↔ ∃ c ∈ s.data, c.isAlpha = true)
      ∧ contexts s
          = ((records s).drop (if csvHasHeader s then 1 else 0)).map castRow := by
  constructor
  · rw [csvHasHeader]
    exact List.any_eq_true
  · cases hh : csvHasHeader s with
    | true =>
      rw [contexts, hh, if_pos rfl, if_pos rfl, csvRowsFrom_two]
    | false =>
      rw [contexts, hh, if_neg (by decide), if_neg (by decide),
        csvRowsFrom_all 1 (records s) 1 (le_refl 1), List.drop_zero]

theorem lookupW_eq_none (k : Int) :
    ∀ temp, (∀ p ∈ temp, k ≠ p.1) → lookupW k temp = none := by
  intro temp
  induction temp with
  | nil => intro _; rfl
  | cons p rest ih =>
    intro h
    obtain ⟨j, v⟩ := p
    rw [lookupW, if_neg (h (j, v) (List.mem_cons_self _ _))]
    exact ih (fun q hq => h q (List.mem_cons_of_mem _ hq))

theorem mem_of_lookupW (k : Int) (v : JsInt) :
    ∀ temp, lookupW k temp = some v → (k, v) ∈ temp := by
  intro temp
  induction temp with
  | nil => intro h; cases h
  | cons p rest ih =>
    obtain ⟨j, w⟩ := p
    intro h
    rw [lookupW] at h
    by_cases hk : k = j
    · rw [if_pos hk] at h
      injection h with hv
      subst hk; subst hv
      exact List.mem_cons_self _ _
    · rw [if_neg hk] at h
      exact List.mem_cons_of_mem _ (ih h)

theorem lookupW_of_mem (k : Int) (v : JsInt) :
    ∀ temp, sortedKeys temp → (k, v) ∈ temp → lookupW k temp = some v := by
  intro temp
  induction temp with
  | nil => intro _ h; cases h
  | cons p rest ih =>
    obtain ⟨j, w⟩ := p
    intro hs hm
    rcases List.mem_cons.mp hm with he | hr
    · rw [Prod.mk.injEq] at he
      rw [lookupW, if_pos he.1, he.2]
    · have hj : j < k := (List.pairwise_cons.mp hs).1 (k, v) hr
      rw [lookupW, if_neg (by omega)]
      exact ih (List.pairwise_cons.mp hs).2 hr

theorem bump_fst (k : Int) (v : JsInt) :
    ∀ temp, ∀ p ∈ bump k v temp, p.1 = k ∨ p.1 ∈ temp.map Prod.fst := by
  intro temp
  induction temp with
  | nil =>
    intro p hp
    rw [bump, List.mem_singleton] at hp
    subst hp
    exact Or.inl rfl
  | cons q rest ih =>
    obtain ⟨j, w⟩ := q
    intro p hp
    rw [bump] at hp
    by_cases h1 : k < j
    · rw [if_pos h1] at hp
      rcases List.mem_cons.mp hp with rfl | hp2
      · exact Or.inl rfl
      · exact Or.inr (List.mem_map_of_mem Prod.fst hp2)
    · rw [if_neg h1] at hp
      by_cases h2 : k = j
      · rw [if_pos h2] at hp
        rcases List.mem_cons.mp hp with rfl | hp2
        · exact Or.inl h2.symm
        · exact Or.inr (List.mem_map_of_mem Prod.fst (List.mem_cons_of_mem _ hp2))
      · rw [if_neg h2] at hp
        rcases List.mem_cons.mp hp with rfl | hp2
        · exact Or.inr (List.mem_map_of_mem Prod.fst (List.mem_cons_self _ _))
        · rcases ih p hp2 with h | h
          · exact Or.inl h
          · rw [List.map_cons]
            exact Or.inr (List.mem_cons_of_mem _ h)

theorem bump_sorted (k : Int) (v : JsInt) :
    ∀ temp, sortedKeys temp → sortedKeys (bump k v temp) := by
  intro temp
  induction temp with
  | nil => intro _; simp [bump, sortedKeys]
  | cons q rest ih =>
    obtain ⟨j, w⟩ := q
    intro hs
    have hhead := (List.pairwise_cons.mp hs).1
    have htail := (List.pairwise_cons.mp hs).2
    rw [bump]
    by_cases h1 : k < j
    · rw [if_pos h1]
      refine List.pairwise_cons.mpr ⟨?_, hs⟩
      intro p hp
      rcases List.mem_cons.mp hp with rfl | hp2
      · exact h1
      · have := hhead p hp2
        omega
    · rw [if_neg h1]
      by_cases h2 : k = j
      · rw [if_pos h2]
        exact List.pairwise_cons.mpr ⟨fun p hp => hhead p hp, htail⟩
      · rw [if_neg h2]
        refine List.pairwise_cons.mpr ⟨?_, ih htail⟩
        intro p hp
        rcases bump_fst k v rest p hp with h | h
        · omega
        · rcases List.mem_map.mp h with ⟨q, hq, hfst⟩
          have := hhead q hq
          omega

theorem bump_lookup_self (k : Int) (v : JsInt) :
    ∀ temp, sortedKeys temp →
      lookupW k (bump k v temp) = some (jsAdd ((lookupW k temp).getD (some 0)) v) := by
  intro temp
  induction temp with
  | nil => simp [bump, lookupW]
  | cons q rest ih =>
    obtain ⟨j, w⟩ := q
    intro hs
    have hhead := (List.pairwise_cons.mp hs).1
    have htail := (List.pairwise_cons.mp hs).2
    rw [bump]
    by_cases h1 : k < j
    · rw [if_pos h1, lookupW, if_pos rfl, lookupW, if_neg (by omega),
        lookupW_eq_none k rest (fun p hp => by have := hhead p hp; omega)]
      rfl
    · rw [if_neg h1]
      by_cases h2 : k = j
      · rw [if_pos h2, lookupW, if_pos h2, lookupW, if_pos h2]
        rfl
      · rw [if_neg h2, lookupW, if_neg h2, lookupW, if_neg h2]
        exact ih htail

theorem bump_lookup_other (k k2 : Int) (v : JsInt) (hne : k2 ≠ k) :
    ∀ temp, lookupW k2 (bump k v temp) = lookupW k2 temp := by
  intro temp
  induction temp with
  | nil => simp [bump, lookupW, if_neg hne]
  | cons q rest ih =>
    obtain ⟨j, w⟩ := q
    rw [bump]
    by_cases h1 : k < j
    · rw [if_pos h1, lookupW, if_neg hne]
    · rw [if_neg h1]
      by_cases h2 : k = j
      · subst h2
        rw [if_pos rfl, lookupW, if_neg hne, lookupW, if_neg hne]
      · rw [if_neg h2, lookupW, lookupW]
        by_cases h3 : k2 = j
        · rw [if_pos h3, if_pos h3]
        · rw [if_neg h3, if_neg h3]
          exact ih

theorem bump_allSome (k : Int) (w : Int) :
    ∀ temp, allSomeTemp temp → allSomeTemp (bump k (some w) temp) := by
  intro temp
  induction temp with
  | nil =>
    intro _ p hp
    rw [bump, List.mem_singleton] at hp
    subst hp
    exact ⟨0 + w, rfl⟩
  | cons q rest ih =>
    obtain ⟨j, u⟩ := q
    intro h p hp
    have hhead : ∃ n : Int, u = some n := h (j, u) (List.mem_cons_self _ _)
    have htail : allSomeTemp rest := fun q hq => h q (List.mem_cons_of_mem _ hq)
    rw [bump] at hp
    by_cases h1 : k < j
    · rw [if_pos h1] at hp
      rcases List.mem_cons.mp hp with rfl | hp2
      · exact ⟨0 + w, rfl⟩
      · exact h p hp2
    · rw [if_neg h1] at hp
      by_cases h2 : k = j
      · rw [if_pos h2] at hp
        rcases List.mem_cons.mp hp with rfl | hp2
        · obtain ⟨n, hn⟩ := hhead
          exact ⟨n + w, by rw [hn]; rfl⟩
        · exact htail p hp2
      · rw [if_neg h2] at hp
        rcases List.mem_cons.mp hp with rfl | hp2
        · exact hhead
        · exact ih htail p hp2

theorem bump_sumVals (k : Int) (w : Int) :
    ∀ temp, allSomeTemp temp → sumVals (bump k (some w) temp) = sumVals temp + w := by
  intro temp
  induction temp with
  | nil => simp [bump, sumVals, jsAdd]
  | cons q rest ih =>
    obtain ⟨j, u⟩ := q
    intro h
    have hhead : ∃ n : Int, u = some n := h (j, u) (List.mem_cons_self _ _)
    have htail : allSomeTemp rest := fun q hq => h q (List.mem_cons_of_mem _ hq)
    rw [bump]
    by_cases h1 : k < j
    · rw [if_pos h1]
      show (jsAdd (some 0) (some w)).getD 0 + ((j, u).2.getD 0 + sumVals rest)
          = ((j, u).2.getD 0 + sumVals rest) + w
      simp [jsAdd]
      omega
    · rw [if_neg h1]
      by_cases h2 : k = j
      · rw [if_pos h2]
        obtain ⟨n, hn⟩ := hhead
        subst hn
        show (jsAdd (some n) (some w)).getD 0 + sumVals rest
            = (some n).getD 0 + sumVals rest + w
        simp [jsAdd]
        omega
      · rw [if_neg h2]
        show (j, u).2.getD 0 + sumVals (bump k (some w) rest)
            = (j, u).2.getD 0 + sumVals rest + w
        rw [ih htail]
        omega

theorem mkTemp (a : List (Int × JsInt)) (b : JsInt) :
    (HistState.mk a b).perfectWidthsTemp = a := rfl

theorem mkTotal (a : List (Int × JsInt)) (b : JsInt) :
    (HistState.mk a b).totalViews = b := rfl

theorem insertBucket_perm (x : Bucket) :
    ∀ l, List.Perm (insertBucket x l) (x :: l) := by
  intro l
  induction l with
  | nil => exact List.Perm.refl _
  | cons y ys ih =>
    rw [insertBucket]
    by_cases h : bucketBefore x y = true
    · rw [if_pos h]
    · rw [if_neg h]
      exact List.Perm.trans (List.Perm.cons y ih) (List.Perm.swap x y ys)

theorem sortBuckets_perm : ∀ l, List.Perm (sortBuckets l) l := by
  intro l
  induction l with
  | nil => exact List.Perm.refl _
  | cons x xs ih =>
    rw [sortBuckets]
    exact List.Perm.trans (insertBucket_perm x (sortBuckets xs)) (List.Perm.cons x ih)

theorem sortBuckets_mem (b : Bucket) (l : List Bucket) :
    b ∈ sortBuckets l ↔ b ∈ l :=
  (sortBuckets_perm l).mem_iff

theorem bucketBefore_some (x y : Bucket) (p q : Rat) (hx : x.percentage = some p)
    (hy : y.percentage = some q) : bucketBefore x y = decide (q - p ≤ 0) := by
  unfold bucketBefore
  rw [hx, hy]

theorem insertBucket_sorted (x : Bucket) :
    ∀ l, (∀ b ∈ x :: l, (b.percentage).isSome = true) →
      List.Pairwise (fun a b => (b.percentage).getD 0 ≤ (a.percentage).getD 0) l →
      List.Pairwise (fun a b => (b.percentage).getD 0 ≤ (a.percentage).getD 0)
        (insertBucket x l) := by
  intro l
  induction l with
  | nil => intro _ _; simp [insertBucket]
  | cons y ys ih =>
    intro hsome hp
    obtain ⟨p, hxp⟩ := Option.isSome_iff_exists.mp (hsome x (List.mem_cons_self _ _))
    obtain ⟨q, hyq⟩ := Option.isSome_iff_exists.mp
      (hsome y (List.mem_cons_of_mem _ (List.mem_cons_self _ _)))
    have hhead := (List.pairwise_cons.mp hp).1
    have htail := (List.pairwise_cons.mp hp).2
    rw [insertBucket]
    by_cases hb : bucketBefore x y = true
    · rw [if_pos hb]
      rw [bucketBefore_some x y p q hxp hyq] at hb
      have hqp : q ≤ p := by have := of_decide_eq_true hb; linarith
      refine List.pairwise_cons.mpr ⟨?_, hp⟩
      intro z hz
      rcases List.mem_cons.mp hz with rfl | hz2
      · rw [hxp, hyq]
        simpa using hqp
      · have hyz := hhead z hz2
        rw [hyq] at hyz
        rw [hxp]
        simp only [Option.getD_some] at hyz ⊢
        linarith
    · rw [if_neg hb]
      rw [bucketBefore_some x y p q hxp hyq] at hb
      have hpq : p ≤ q := by
        have h2 : ¬(q - p ≤ 0) := fun hc => hb (decide_eq_true hc)
        linarith
      refine List.pairwise_cons.mpr ⟨?_, ih ?_ htail⟩
      · intro z hz
        have hz2 : z ∈ x :: ys := (insertBucket_perm x ys).mem_iff.mp hz
        rcases List.mem_cons.mp hz2 with rfl | hz3
        · rw [hxp, hyq]
          simpa using hpq
        · exact hhead z hz3
      · intro b hb2
        rcases List.mem_cons.mp hb2 with rfl | hb3
        · exact hsome b (List.mem_cons_self _ _)
        · exact hsome b (List.mem_cons_of_mem _ (List.mem_cons_of_mem _ hb3))

theorem sortBuckets_sorted :
    ∀ l, (∀ b ∈ l, (b.percentage).isSome = true) →
      List.Pairwise (fun a b => (b.percentage).getD 0 ≤ (a.percentage).getD 0)
        (sortBuckets l) := by
  intro l
  induction l with
  | nil => intro _; simp [sortBuckets]
  | cons x xs ih =>
    intro hsome
    rw [sortBuckets]
    refine insertBucket_sorted x (sortBuckets xs) ?_ (ih ?_)
    · intro b hb
      rcases List.mem_cons.mp hb with rfl | hb2
      · exact hsome b (List.mem_cons_self _ _)
      · exact hsome b (List.mem_cons_of_mem _ ((sortBuckets_perm xs).mem_iff.mp hb2))
    · intro b hb
      exact hsome b (List.mem_cons_of_mem _ hb)

theorem histStep_skip (iw : Int → Option Nat) (lo hi : JsInt) (st : HistState)
    (c : Context) (h : (jsGeB c.viewport lo && jsLeB c.viewport hi) = false) :
    histStep iw lo hi st c = st := by
  unfold histStep
  rw [h]
  simp

theorem histStep_total (iw : Int → Option Nat) (lo hi : Int) (st : HistState)
    (c : Context) (hin : inRange lo hi c = true) :
    (histStep iw (some lo) (some hi) st c).totalViews
      = jsAdd st.totalViews c.views := by
  unfold histStep
  rw [show (jsGeB c.viewport (some lo) && jsLeB c.viewport (some hi)) = true from hin]
  simp

theorem histStep_store (iw : Int → Option Nat) (lo hi : Int) (st : HistState)
    (c : Context) (k w : Int) (hin : inRange lo hi c = true)
    (hpw : perfectWidth iw c = some k) (hk : 0 ≤ k) (hv : c.views = some w) :
    histStep iw (some lo) (some hi) st c
      = ⟨bump k (some w) st.perfectWidthsTemp, jsAdd st.totalViews (some w)⟩ := by
  unfold histStep
  rw [show (jsGeB c.viewport (some lo) && jsLeB c.viewport (some hi)) = true from hin,
    hpw, hv]
  simp [hk]

theorem histStep_temp_cases (iw : Int → Option Nat) (lo hi : JsInt) (st : HistState)
    (c : Context) :
    (histStep iw lo hi st c).perfectWidthsTemp = st.perfectWidthsTemp
      ∨ ∃ k, 0 ≤ k ∧ (histStep iw lo hi st c).perfectWidthsTemp
            = bump k c.views st.perfectWidthsTemp := by
  unfold histStep
  cases hc : (jsGeB c.viewport lo && jsLeB c.viewport hi) with
  | false => simp
  | true =>
    simp only [if_true]
    cases hpw : perfectWidth iw c with
    | none => simp
    | some k =>
      by_cases hk : 0 ≤ k
      · right
        exact ⟨k, hk, by simp [hk]⟩
      · left
        simp [hk]

theorem includedViews_cons_out (c : Context) (cs : List Context) (lo hi : Int)
    (hin : inRange lo hi c = false) :
    includedViews (c :: cs) lo hi = includedViews cs lo hi := by
  simp [includedViews, List.filter_cons, hin]

theorem includedViews_cons_in (c : Context) (cs : List Context) (lo hi : Int)
    (w : Int) (hin : inRange lo hi c = true) (hw : c.views = some w) :
    includedViews (c :: cs) lo hi = w + includedViews cs lo hi := by
  simp [includedViews, List.filter_cons, hin, viewsVal, hw]

theorem total_fold (iw : Int → Option Nat) (lo hi : Int) :
    ∀ (ctxs : List Context) (st : HistState) (t : Int),
      (∀ c ∈ ctxs, inRange lo hi c = true → (c.views).isSome = true) →
      st.totalViews = some t →
      (ctxs.foldl (histStep iw (some lo) (some hi)) st).totalViews
        = some (t + includedViews ctxs lo hi) := by
  intro ctxs
  induction ctxs with
  | nil =>
    intro st t _ ht
    rw [List.foldl_nil, ht]
    simp [includedViews]
  | cons c cs ih =>
    intro st t hyp ht
    rw [List.foldl_cons]
    cases hin : inRange lo hi c with
    | false =>
      rw [histStep_skip iw (some lo) (some hi) st c hin,
        includedViews_cons_out c cs lo hi hin]
      exact ih st t (fun x hx hx2 => hyp x (List.mem_cons_of_mem _ hx) hx2) ht
    | true =>
      obtain ⟨w, hw⟩ :=
        Option.isSome_iff_exists.mp (hyp c (List.mem_cons_self _ _) hin)
      have htot : (histStep iw (some lo) (some hi) st c).totalViews = some (t + w) := by
        rw [histStep_total iw lo hi st c hin, ht, hw]
        rfl
      rw [includedViews_cons_in c cs lo hi w hin hw,
        ih _ (t + w) (fun x hx hx2 => hyp x (List.mem_cons_of_mem _ hx) hx2) htot,
        Int.add_assoc]

theorem sorted_fold (iw : Int → Option Nat) (lo hi : JsInt) :
    ∀ (ctxs : List Context) (st : HistState), sortedKeys st.perfectWidthsTemp →
      sortedKeys (ctxs.foldl (histStep iw lo hi) st).perfectWidthsTemp := by
  intro ctxs
  induction ctxs with
  | nil => intro st h; exact h
  | cons c cs ih =>
    intro st h
    rw [List.foldl_cons]
    apply ih
    rcases histStep_temp_cases iw lo hi st c with he | ⟨k, _, he⟩
    · rw [he]; exact h
    · rw [he]; exact bump_sorted k c.views _ h

theorem allSome_fold (iw : Int → Option Nat) (lo hi : Int) :
    ∀ (ctxs : List Context) (st : HistState),
      (∀ c ∈ ctxs, inRange lo hi c = true → (c.views).isSome = true) →
      allSomeTemp st.perfectWidthsTemp →
      allSomeTemp (ctxs.foldl (histStep iw (some lo) (some hi)) st).perfectWidthsTemp := by
  intro ctxs
  induction ctxs with
  | nil => intro st _ h; exact h
  | cons c cs ih =>
    intro st hyp h
    rw [List.foldl_cons]
    apply ih _ (fun x hx hx2 => hyp x (List.mem_cons_of_mem _ hx) hx2)
    cases hin : inRange lo hi c with
    | false =>
      rw [histStep_skip iw (some lo) (some hi) st c hin]
      exact h
    | true =>
      obtain ⟨w, hw⟩ :=
        Option.isSome_iff_exists.mp (hyp c (List.mem_cons_self _ _) hin)
      rcases histStep_temp_cases iw (some lo) (some hi) st c with he | ⟨k, _, he⟩
      · rw [he]; exact h
      · rw [he, hw]; exact bump_allSome k w _ h

theorem sumVals_fold (iw : Int → Option Nat) (lo hi : Int) :
    ∀ (ctxs : List Context) (st : HistState),
      (∀ c ∈ ctxs, inRange lo hi c = true → CleanCtx iw c) →
      allSomeTemp st.perfectWidthsTemp →
      sumVals (ctxs.foldl (histStep iw (some lo) (some hi)) st).perfectWidthsTemp
        = sumVals st.perfectWidthsTemp + includedViews ctxs lo hi := by
  intro ctxs
  induction ctxs with
  | nil =>
    intro st _ _
    rw [List.foldl_nil]
    simp [includedViews]
  | cons c cs ih =>
    intro st hyp hall
    rw [List.foldl_cons]
    cases hin : inRange lo hi c with
    | false =>
      rw [histStep_skip iw (some lo) (some hi) st c hin,
        includedViews_cons_out c cs lo hi hin]
      exact ih st (fun x hx hx2 => hyp x (List.mem_cons_of_mem _ hx) hx2) hall
    | true =>
      have hcl := hyp c (List.mem_cons_self _ _) hin
      obtain ⟨w, hw⟩ := Option.isSome_iff_exists.mp hcl.1
      obtain ⟨k, hk⟩ := Option.isSome_iff_exists.mp hcl.2.1
      have hk0 : 0 ≤ k := by
        have h2 := hcl.2.2
        rw [hk] at h2
        simpa using h2
      rw [histStep_store iw lo hi st c k w hin hk hk0 hw,
        ih _ (fun x hx hx2 => hyp x (List.mem_cons_of_mem _ hx) hx2)
          (by rw [mkTemp]; exact bump_allSome k w _ hall),
        mkTemp, bump_sumVals k w _ hall,
        includedViews_cons_in c cs lo hi w hin hw]
      omega

theorem acc_zero (ctxs : List Context) (iw : Int → Option Nat) (lo hi k : Int)
    (h : hasContrib ctxs iw lo hi k = false) :
    accViews ctxs iw lo hi k = 0 := by
  unfold accViews
  rw [List.filter_eq_nil_iff.mpr (List.any_eq_false.mp h)]
  rfl

theorem hasContrib_cons_of_pred (c : Context) (cs : List Context)
    (iw : Int → Option Nat) (lo hi k : Int)
    (h : (inRange lo hi c && decide (perfectWidth iw c = some k)) = false) :
    hasContrib (c :: cs) iw lo hi k = hasContrib cs iw lo hi k := by
  simp only [hasContrib, List.any_cons, h, Bool.false_or]

theorem accViews_cons_of_pred (c : Context) (cs : List Context)
    (iw : Int → Option Nat) (lo hi k : Int)
    (h : (inRange lo hi c && decide (perfectWidth iw c = some k)) = false) :
    accViews (c :: cs) iw lo hi k = accViews cs iw lo hi k := by
  simp [accViews, List.filter_cons, h]

theorem lookup_fold (iw : Int → Option Nat) (lo hi : Int) :
    ∀ (ctxs : List Context) (st : HistState),
      (∀ c ∈ ctxs, inRange lo hi c = true → CleanCtx iw c) →
      sortedKeys st.perfectWidthsTemp →
      allSomeTemp st.perfectWidthsTemp →
      ∀ k : Int,
        lookupW k (ctxs.foldl (histStep iw (some lo) (some hi)) st).perfectWidthsTemp
          = if hasContrib ctxs iw lo hi k = true
            then some (some (curVal st.perfectWidthsTemp k + accViews ctxs iw lo hi k))
            else lookupW k st.perfectWidthsTemp := by
  intro ctxs
  induction ctxs with
  | nil =>
    intro st _ _ _ k
    rw [List.foldl_nil]
    have h0 : hasContrib [] iw lo hi k = false := rfl
    rw [h0]
    simp
  | cons c cs ih =>
    intro st hyp hsort hall k
    rw [List.foldl_cons]
    cases hin : inRange lo hi c with
    | false =>
      have hpred : (inRange lo hi c && decide (perfectWidth iw c = some k)) = false := by
        rw [hin]
        rfl
      rw [histStep_skip iw (some lo) (some hi) st c hin,
        hasContrib_cons_of_pred c cs iw lo hi k hpred,
        accViews_cons_of_pred c cs iw lo hi k hpred]
      exact ih st (fun x hx hx2 => hyp x (List.mem_cons_of_mem _ hx) hx2) hsort hall k
    | true =>
      have hcl := hyp c (List.mem_cons_self _ _) hin
      obtain ⟨w, hw⟩ := Option.isSome_iff_exists.mp hcl.1
      obtain ⟨k0, hk0⟩ := Option.isSome_iff_exists.mp hcl.2.1
      have hk0nn : 0 ≤ k0 := by
        have h2 := hcl.2.2
        rw [hk0] at h2
        simpa using h2
      rw [histStep_store iw lo hi st c k0 w hin hk0 hk0nn hw]
      have htail := fun x hx hx2 => hyp x (List.mem_cons_of_mem _ hx) hx2
      have hsort2 : sortedKeys (bump k0 (some w) st.perfectWidthsTemp) :=
        bump_sorted k0 (some w) _ hsort
      have hall2 : allSomeTemp (bump k0 (some w) st.perfectWidthsTemp) :=
        bump_allSome k0 w _ hall
      have ihk := ih ⟨bump k0 (some w) st.perfectWidthsTemp,
        jsAdd st.totalViews (some w)⟩ htail (by rw [mkTemp]; exact hsort2)
        (by rw [mkTemp]; exact hall2) k
      rw [mkTemp] at ihk
      by_cases hkk : k = k0
      · subst hkk
        have hpred : (inRange lo hi c && decide (perfectWidth iw c = some k)) = true := by
          rw [hin, hk0]
          simp
        have hcontrib : hasContrib (c :: cs) iw lo hi k = true := by
          simp [hasContrib, List.any_cons, hpred]
        have hacc : accViews (c :: cs) iw lo hi k = w + accViews cs iw lo hi k := by
          simp [accViews, List.filter_cons, hpred, viewsVal, hw]
        have hlookbase : lookupW k (bump k (some w) st.perfectWidthsTemp)
            = some (some (curVal st.perfectWidthsTemp k + w)) := by
          rw [bump_lookup_self k (some w) _ hsort]
          cases hl : lookupW k st.perfectWidthsTemp with
          | none => simp [curVal, hl, jsAdd]
          | some v =>
            obtain ⟨n, hn⟩ := hall (k, v) (mem_of_lookupW k v _ hl)
            simp only at hn
            subst hn
            simp [curVal, hl, jsAdd]
        have hcur2 : curVal (bump k (some w) st.perfectWidthsTemp) k
            = curVal st.perfectWidthsTemp k + w := by
          unfold curVal
          rw [hlookbase]
          rfl
        rw [ihk, hcontrib, if_pos rfl, hcur2, hacc]
        by_cases hc2 : hasContrib cs iw lo hi k = true
        · rw [if_pos hc2]
          congr 2
          omega
        · rw [if_neg hc2, hlookbase, acc_zero cs iw lo hi k (Bool.not_eq_true _ ▸ hc2)]
          congr 2
          omega
      · have hpred : (inRange lo hi c && decide (perfectWidth iw c = some k)) = false := by
          rw [hin, hk0]
          simp only [Bool.true_and, decide_eq_false_iff_not]
          exact fun h => hkk (Option.some.inj h).symm
        have hcontrib := hasContrib_cons_of_pred c cs iw lo hi k hpred
        have hacc := accViews_cons_of_pred c cs iw lo hi k hpred
        have hlook2 : lookupW k (bump k0 (some w) st.perfectWidthsTemp)
            = lookupW k st.perfectWidthsTemp :=
          bump_lookup_other k0 k (some w) hkk _
        have hcur2 : curVal (bump k0 (some w) st.perfectWidthsTemp) k
            = curVal st.perfectWidthsTemp k := by
          unfold curVal
          rw [hlook2]
        rw [ihk, hcontrib, hacc, hcur2, hlook2]

theorem final_total (ctxs : List Context) (iw : Int → Option Nat) (lo hi : Int)
    (hviews : ∀ c ∈ ctxs, inRange lo hi c = true → (c.views).isSome = true) :
    (histStateOf ctxs iw (some lo) (some hi)).totalViews
      = some (includedViews ctxs lo hi) := by
  unfold histStateOf
  have h := total_fold iw lo hi ctxs ⟨[], some 0⟩ 0 hviews rfl
  simpa using h

theorem final_sorted (ctxs : List Context) (iw : Int → Option Nat) (lo hi : JsInt) :
    sortedKeys (histStateOf ctxs iw lo hi).perfectWidthsTemp := by
  unfold histStateOf
  exact sorted_fold iw lo hi ctxs ⟨[], some 0⟩ List.Pairwise.nil

theorem final_allSome (ctxs : List Context) (iw : Int → Option Nat) (lo hi : Int)
    (hviews : ∀ c ∈ ctxs, inRange lo hi c = true → (c.views).isSome = true) :
    allSomeTemp (histStateOf ctxs iw (some lo) (some hi)).perfectWidthsTemp := by
  unfold histStateOf
  exact allSome_fold iw lo hi ctxs ⟨[], some 0⟩ hviews (fun p hp => by cases hp)

theorem final_sumVals (ctxs : List Context) (iw : Int → Option Nat) (lo hi : Int)
    (hclean : ∀ c ∈ ctxs, inRange lo hi c = true → CleanCtx iw c) :
    sumVals (histStateOf ctxs iw (some lo) (some hi)).perfectWidthsTemp
      = includedViews ctxs lo hi := by
  unfold histStateOf
  have h := sumVals_fold iw lo hi ctxs ⟨[], some 0⟩ hclean (fun p hp => by cases hp)
  simpa [sumVals] using h

theorem final_lookup (ctxs : List Context) (iw : Int → Option Nat) (lo hi : Int)
    (hclean : ∀ c ∈ ctxs, inRange lo hi c = true → CleanCtx iw c) (k : Int) :
    lookupW k (histStateOf ctxs iw (some lo) (some hi)).perfectWidthsTemp
      = if hasContrib ctxs iw lo hi k = true
        then some (some (accViews ctxs iw lo hi k))
        else none := by
  unfold histStateOf
  have h := lookup_fold iw lo hi ctxs ⟨[], some 0⟩ hclean List.Pairwise.nil
    (fun p hp => by cases hp) k
  simpa [curVal, lookupW] using h

/-- Claim C3, amended: the histogram step returns the buckets sorted by weight
(percentage) in decreasing order, whenever every produced weight is an actual
number. -/
theorem c3_sorted_by_percentage_desc (ctxs : List Context) (iw : Int → Option Nat)
    (lo hi : JsInt)
    (h : ∀ b ∈ buildHistogram ctxs iw lo hi, (b.percentage).isSome = true) :
    List.Pairwise (fun a b => (b.percentage).getD 0 ≤ (a.percentage).getD 0)
      (buildHistogram ctxs iw lo hi) := by
  unfold buildHistogram at h ⊢
  exact sortBuckets_sorted _ (fun b hb => h b ((sortBuckets_mem _ _).mpr hb))

/-- Claim C4, amended: a sample whose viewport fails the range guard is
silently dropped: the histogram over any context list containing it equals the
histogram over the same list without it, and no error of any kind occurs. -/
theorem c4_out_of_range_sample_excluded (ctxs1 ctxs2 : List Context) (c : Context)
    (iw : Int → Option Nat) (lo hi : JsInt)
    (h : (jsGeB c.viewport lo && jsLeB c.viewport hi) = false) :
    buildHistogram (ctxs1 ++ c :: ctxs2) iw lo hi
      = buildHistogram (ctxs1 ++ ctxs2) iw lo hi := by
  unfold buildHistogram histStateOf
  rw [List.foldl_append, List.foldl_append, List.foldl_cons,
    histStep_skip iw lo hi _ c h]

theorem perfect_sum (T : Int) (hT : T ≠ 0) :
    ∀ temp : List (Int × JsInt), allSomeTemp temp →
      ((temp.map (fun p => (⟨p.1, jsDivIR p.2 (some T)⟩ : Bucket))).map
          (fun b => (b.percentage).getD 0)).sum
        = (sumVals temp : Rat) / (T : Rat) := by
  intro temp
  induction temp with
  | nil => simp [sumVals]
  | cons p rest ih =>
    intro h
    obtain ⟨n, hn⟩ := h p (List.mem_cons_self _ _)
    have htail : allSomeTemp rest := fun q hq => h q (List.mem_cons_of_mem _ hq)
    rw [List.map_cons, List.map_cons, List.sum_cons, ih htail]
    show (jsDivIR p.2 (some T)).getD 0 + (sumVals rest : Rat) / (T : Rat)
        = ((sumVals (p :: rest) : Int) : Rat) / (T : Rat)
    rw [hn]
    show (jsDivIR (some n) (some T)).getD 0 + (sumVals rest : Rat) / (T : Rat)
        = ((p.2.getD 0 + sumVals rest : Int) : Rat) / (T : Rat)
    rw [hn]
    simp only [jsDivIR, if_neg hT, Option.getD_some]
    push_cast
    rw [div_add_div_same]

/-- Claim C6: for clean in-range samples and a nonzero included-views total,
the weights of the produced buckets are actual numbers and sum to exactly 1
(in exact rational arithmetic, hence within floating-point tolerance). -/
theorem c6_weights_sum_to_one (ctxs : List Context) (iw : Int → Option Nat)
    (lo hi : Int)
    (hclean : ∀ c ∈ ctxs, inRange lo hi c = true → CleanCtx iw c)
    (hT : includedViews ctxs lo hi ≠ 0) :
    ((buildHistogram ctxs iw (some lo) (some hi)).map
        (fun b => (b.percentage).getD 0)).sum = 1
      ∧ ∀ b ∈ buildHistogram ctxs iw (some lo) (some hi),
          (b.percentage).isSome = true := by
  have hviews : ∀ c ∈ ctxs, inRange lo hi c = true → (c.views).isSome = true :=
    fun c hc hin => (hclean c hc hin).1
  have htot := final_total ctxs iw lo hi hviews
  have hall := final_allSome ctxs iw lo hi hviews
  have hsum := final_sumVals ctxs iw lo hi hclean
  constructor
  · unfold buildHistogram
    have hperm : List.Perm
        ((sortBuckets (perfectWidthsOf (histStateOf ctxs iw (some lo) (some hi)))).map
          (fun b => (b.percentage).getD 0))
        ((perfectWidthsOf (histStateOf ctxs iw (some lo) (some hi))).map
          (fun b => (b.percentage).getD 0)) :=
      (sortBuckets_perm _).map _
    rw [hperm.sum_eq]
    unfold perfectWidthsOf
    rw [htot, perfect_sum (includedViews ctxs lo hi) hT _ hall, hsum]
    exact div_self (Int.cast_ne_zero.mpr hT)
  · intro b hb
    unfold buildHistogram at hb
    obtain ⟨p, hp, hbp⟩ := List.mem_map.mp ((sortBuckets_mem _ _).mp hb)
    obtain ⟨n, hn⟩ := hall p hp
    rw [← hbp]
    show (jsDivIR p.2 (histStateOf ctxs iw (some lo) (some hi)).totalViews).isSome = true
    rw [hn, htot]
    simp [jsDivIR, hT]

/-- Claim C7: each produced bucket carries weight accViews of its width divided
by the included-views total (samples outside the range count in neither), and
the bucket widths are exactly the perfect widths
ceil(imageWidths[viewport] * density) of the in-range samples. -/
theorem c7_histogram_accumulation (ctxs : List Context) (iw : Int → Option Nat)
    (lo hi : Int)
    (hclean : ∀ c ∈ ctxs, inRange lo hi c = true → CleanCtx iw c)
    (hT : includedViews ctxs lo hi ≠ 0) :
    (∀ b ∈ buildHistogram ctxs iw (some lo) (some hi),
        b.percentage
          = some ((accViews ctxs iw lo hi b.width : Rat)
              / (includedViews ctxs lo hi : Rat)))
      ∧ ∀ k : Int,
          (∃ b ∈ buildHistogram ctxs iw (some lo) (some hi), b.width = k)
            ↔ ∃ c ∈ ctxs, inRange lo hi c = true ∧ perfectWidth iw c = some k := by
  have hviews : ∀ c ∈ ctxs, inRange lo hi c = true → (c.views).isSome = true :=
    fun c hc hin => (hclean c hc hin).1
  have htot := final_total ctxs iw lo hi hviews
  have hsort := final_sorted ctxs iw (some lo) (some hi)
  have hlook := final_lookup ctxs iw lo hi hclean
  constructor
  · intro b hb
    unfold buildHistogram at hb
    obtain ⟨p, hp, hbp⟩ := List.mem_map.mp ((sortBuckets_mem _ _).mp hb)
    obtain ⟨pk, pv⟩ := p
    have hlp := lookupW_of_mem pk pv _ hsort hp
    rw [hlook pk] at hlp
    by_cases hc : hasContrib ctxs iw lo hi pk = true
    · rw [if_pos hc] at hlp
      have hpv : pv = some (accViews ctxs iw lo hi pk) := (Option.some.inj hlp).symm
      rw [← hbp]
      show jsDivIR pv (histStateOf ctxs iw (some lo) (some hi)).totalViews
          = some ((accViews ctxs iw lo hi
              (Bucket.mk pk (jsDivIR pv (histStateOf ctxs iw (some lo) (some hi)).totalViews)).width : Rat)
            / (includedViews ctxs lo hi : Rat))
      rw [hpv, htot]
      simp [jsDivIR, hT]
    · rw [if_neg hc] at hlp
      cases hlp
  · intro k
    constructor
    · rintro ⟨b, hb, hbk⟩
      unfold buildHistogram at hb
      obtain ⟨p, hp, hbp⟩ := List.mem_map.mp ((sortBuckets_mem _ _).mp hb)
      obtain ⟨pk, pv⟩ := p
      have hpk : pk = k := by rw [← hbp] at hbk; exact hbk
      subst hpk
      have hlp := lookupW_of_mem pk pv _ hsort hp
      rw [hlook pk] at hlp
      by_cases hc : hasContrib ctxs iw lo hi pk = true
      · obtain ⟨c, hc2, hpred⟩ := List.any_eq_true.mp hc
        have h2 := Bool.and_eq_true_iff.mp hpred
        exact ⟨c, hc2, h2.1, of_decide_eq_true h2.2⟩
      · rw [if_neg hc] at hlp
        cases hlp
    · rintro ⟨c, hc, hin, hpw⟩
      have hcontrib : hasContrib ctxs iw lo hi k = true :=
        List.any_eq_true.mpr ⟨c, hc, by rw [hin, hpw]; simp⟩
      have hl := hlook k
      rw [if_pos hcontrib] at hl
      have hmem := mem_of_lookupW k (some (accViews ctxs iw lo hi k)) _ hl
      refine ⟨⟨k, jsDivIR (some (accViews ctxs iw lo hi k))
        (histStateOf ctxs iw (some lo) (some hi)).totalViews⟩, ?_, rfl⟩
      unfold buildHistogram
      exact (sortBuckets_mem _ _).mpr (List.mem_map.mpr ⟨_, hmem, rfl⟩)

/-- Claim C9, amended: an ideal width that no in-range sample maps to is a
hole of the sparse array and is omitted from the output (a width hit only by
zero-views samples is still present, see the counterexample). -/
theorem c9_unhit_width_omitted (ctxs : List Context) (iw : Int → Option Nat)
    (lo hi k : Int)
    (hclean : ∀ c ∈ ctxs, inRange lo hi c = true → CleanCtx iw c)
    (hmiss : ∀ c ∈ ctxs, inRange lo hi c = true → perfectWidth iw c ≠ some k) :
    ∀ b ∈ buildHistogram ctxs iw (some lo) (some hi), b.width ≠ k := by
  intro b hb hbk
  have hnc : hasContrib ctxs iw lo hi k = false := by
    refine List.any_eq_false.mpr ?_
    intro c hc hpred
    have h2 := Bool.and_eq_true_iff.mp hpred
    exact hmiss c hc h2.1 (of_decide_eq_true h2.2)
  unfold buildHistogram at hb
  obtain ⟨p, hp, hbp⟩ := List.mem_map.mp ((sortBuckets_mem _ _).mp hb)
  obtain ⟨pk, pv⟩ := p
  have hpk : pk = k := by rw [← hbp] at hbk; exact hbk
  subst hpk
  have hlp := lookupW_of_mem pk pv _ (final_sorted ctxs iw (some lo) (some hi)) hp
  rw [final_lookup ctxs iw lo hi hclean pk, if_neg (by rw [hnc]; simp)] at hlp
  cases hlp

/-- Witness for c3_sorted_by_percentage_desc at the concrete two-bucket run. -/
theorem c3_sorted_by_percentage_desc_witness :
    (∀ b ∈ buildHistogram c3ctxs idProfile (some 100) (some 200),
        (b.percentage).isSome = true)
      ∧ List.Pairwise (fun a b => (b.percentage).getD 0 ≤ (a.percentage).getD 0)
          (buildHistogram c3ctxs idProfile (some 100) (some 200)) := by
  have he : buildHistogram c3ctxs idProfile (some 100) (some 200)
      = [⟨200, some (7/10)⟩, ⟨100, some (3/10)⟩] := by
    norm_num [buildHistogram, histStateOf, histStep, perfectWidth, jsLookup, idProfile,
      jsMulND, ceilJs, ratCeil, jsGeB, jsLeB, jsAdd, bump, perfectWidthsOf, jsDivIR,
      sortBuckets, insertBucket, bucketBefore, c3ctxs, List.foldl]
  have h : ∀ b ∈ buildHistogram c3ctxs idProfile (some 100) (some 200),
      (b.percentage).isSome = true := by
    rw [he]
    intro b hb
    rcases List.mem_cons.mp hb with rfl | hb2
    · rfl
    · rcases List.mem_singleton.mp hb2 with rfl
      rfl
  exact ⟨h, c3_sorted_by_percentage_desc c3ctxs idProfile (some 100) (some 200) h⟩

/-- Witness for c4_out_of_range_sample_excluded at the concrete sample. -/
theorem c4_out_of_range_sample_excluded_witness :
    ((jsGeB c4Out.viewport (some 100) && jsLeB c4Out.viewport (some 200)) = false)
      ∧ buildHistogram ([c4In] ++ c4Out :: []) idProfile (some 100) (some 200)
        = buildHistogram ([c4In] ++ []) idProfile (some 100) (some 200) :=
  ⟨by decide,
    c4_out_of_range_sample_excluded [c4In] [] c4Out idProfile (some 100) (some 200)
      (by decide)⟩

/-- Witness for c6_weights_sum_to_one at a concrete two-sample dataset. -/
theorem c6_weights_sum_to_one_witness :
    ((∀ c ∈ c6ctxs, inRange 100 200 c = true → CleanCtx idProfile c)
      ∧ includedViews c6ctxs 100 200 ≠ 0)
      ∧ (((buildHistogram c6ctxs idProfile (some 100) (some 200)).map
            (fun b => (b.percentage).getD 0)).sum = 1
          ∧ ∀ b ∈ buildHistogram c6ctxs idProfile (some 100) (some 200),
              (b.percentage).isSome = true) := by
  have hclean : ∀ c ∈ c6ctxs, inRange 100 200 c = true → CleanCtx idProfile c := by
    intro c hc _
    rcases List.mem_cons.mp hc with rfl | hc2
    · refine ⟨rfl, ?_, ?_⟩ <;>
        norm_num [perfectWidth, jsLookup, idProfile, jsMulND, ceilJs, ratCeil,
          show Int.toNat 100 = 100 from rfl, show Int.toNat 120 = 120 from rfl,
          show Int.toNat 150 = 150 from rfl, show Int.toNat 200 = 200 from rfl]
    · rcases List.mem_singleton.mp hc2 with rfl
      refine ⟨rfl, ?_, ?_⟩ <;>
        norm_num [perfectWidth, jsLookup, idProfile, jsMulND, ceilJs, ratCeil,
          show Int.toNat 100 = 100 from rfl, show Int.toNat 120 = 120 from rfl,
          show Int.toNat 150 = 150 from rfl, show Int.toNat 200 = 200 from rfl]
  have hT : includedViews c6ctxs 100 200 ≠ 0 := by decide
  exact ⟨⟨hclean, hT⟩, c6_weights_sum_to_one c6ctxs idProfile 100 200 hclean hT⟩

/-- Witness for c7_histogram_accumulation at a concrete two-sample dataset. -/
theorem c7_histogram_accumulation_witness :
    ((∀ c ∈ c6ctxs, inRange 100 200 c = true → CleanCtx idProfile c)
      ∧ includedViews c6ctxs 100 200 ≠ 0)
      ∧ ((∀ b ∈ buildHistogram c6ctxs idProfile (some 100) (some 200),
            b.percentage = some ((accViews c6ctxs idProfile 100 200 b.width : Rat)
              / (includedViews c6ctxs 100 200 : Rat)))
          ∧ ∀ k : Int,
              (∃ b ∈ buildHistogram c6ctxs idProfile (some 100) (some 200), b.width = k)
                ↔ ∃ c ∈ c6ctxs, inRange 100 200 c = true
                    ∧ perfectWidth idProfile c = some k) := by
  have hclean : ∀ c ∈ c6ctxs, inRange 100 200 c = true → CleanCtx idProfile c := by
    intro c hc _
    rcases List.mem_cons.mp hc with rfl | hc2
    · refine ⟨rfl, ?_, ?_⟩ <;>
        norm_num [perfectWidth, jsLookup, idProfile, jsMulND, ceilJs, ratCeil,
          show Int.toNat 100 = 100 from rfl, show Int.toNat 120 = 120 from rfl,
          show Int.toNat 150 = 150 from rfl, show Int.toNat 200 = 200 from rfl]
    · rcases List.mem_singleton.mp hc2 with rfl
      refine ⟨rfl, ?_, ?_⟩ <;>
        norm_num [perfectWidth, jsLookup, idProfile, jsMulND, ceilJs, ratCeil,
          show Int.toNat 100 = 100 from rfl, show Int.toNat 120 = 120 from rfl,
          show Int.toNat 150 = 150 from rfl, show Int.toNat 200 = 200 from rfl]
  have hT : includedViews c6ctxs 100 200 ≠ 0 := by decide
  exact ⟨⟨hclean, hT⟩, c7_histogram_accumulation c6ctxs idProfile 100 200 hclean hT⟩

/-- Witness for c9_unhit_width_omitted: no sample maps to width 123, so no
bucket has width 123. -/
theorem c9_unhit_width_omitted_witness :
    ((∀ c ∈ c9ctxs, inRange 100 200 c = true → CleanCtx idProfile c)
      ∧ ∀ c ∈ c9ctxs, inRange 100 200 c = true →
          perfectWidth idProfile c ≠ some 123)
      ∧ ∀ b ∈ buildHistogram c9ctxs idProfile (some 100) (some 200),
          b.width ≠ 123 := by
  have hclean : ∀ c ∈ c9ctxs, inRange 100 200 c = true → CleanCtx idProfile c := by
    intro c hc _
    rcases List.mem_cons.mp hc with rfl | hc2
    · refine ⟨rfl, ?_, ?_⟩ <;>
        norm_num [perfectWidth, jsLookup, idProfile, jsMulND, ceilJs, ratCeil,
          show Int.toNat 100 = 100 from rfl, show Int.toNat 120 = 120 from rfl,
          show Int.toNat 150 = 150 from rfl, show Int.toNat 200 = 200 from rfl]
    · rcases List.mem_singleton.mp hc2 with rfl
      refine ⟨rfl, ?_, ?_⟩ <;>
        norm_num [perfectWidth, jsLookup, idProfile, jsMulND, ceilJs, ratCeil,
          show Int.toNat 100 = 100 from rfl, show Int.toNat 120 = 120 from rfl,
          show Int.toNat 150 = 150 from rfl, show Int.toNat 200 = 200 from rfl]
  have hmiss : ∀ c ∈ c9ctxs, inRange 100 200 c = true →
      perfectWidth idProfile c ≠ some 123 := by
    intro c hc _
    rcases List.mem_cons.mp hc with rfl | hc2
    · norm_num [perfectWidth, jsLookup, idProfile, jsMulND, ceilJs, ratCeil,
          show Int.toNat 100 = 100 from rfl, show Int.toNat 120 = 120 from rfl,
          show Int.toNat 150 = 150 from rfl, show Int.toNat 200 = 200 from rfl]
    · rcases List.mem_singleton.mp hc2 with rfl
      norm_num [perfectWidth, jsLookup, idProfile, jsMulND, ceilJs, ratCeil,
          show Int.toNat 100 = 100 from rfl, show Int.toNat 120 = 120 from rfl,
          show Int.toNat 150 = 150 from rfl, show Int.toNat 200 = 200 from rfl]
  exact ⟨⟨hclean, hmiss⟩,
    c9_unhit_width_omitted c9ctxs idProfile 100 200 123 hclean hmiss⟩

theorem imageWidthsGo_spec (measure : Int → Option Nat) (f : Int → Nat) :
    ∀ (n : Nat) (w : Int),
      (∀ i : Nat, i < n → measure (w + (i : Int)) = some (f (w + (i : Int)))) →
      imageWidthsGo measure w n
        = some ((List.range n).map
            (fun i : Nat => (w + (i : Int), f (w + (i : Int))))) := by
  intro n
  induction n with
  | zero => intro w _; rfl
  | succ n ih =>
    intro w h
    have h0 : measure w = some (f w) := by
      have h1 := h 0 (Nat.succ_pos n)
      simpa using h1
    have hshift : ∀ i : Nat, i < n →
        measure (w + 1 + (i : Int)) = some (f (w + 1 + (i : Int))) := by
      intro i hi
      have h2 := h (i + 1) (Nat.succ_lt_succ hi)
      have hcast : (((i + 1 : Nat)) : Int) = (i : Int) + 1 := by push_cast; ring
      rw [hcast] at h2
      have harr : w + ((i : Int) + 1) = w + 1 + (i : Int) := by ring
      rw [harr] at h2
      exact h2
    rw [imageWidthsGo, h0, ih (w + 1) hshift]
    show some ((w, f w) :: (List.range n).map
          (fun i : Nat => (w + 1 + (i : Int), f (w + 1 + (i : Int)))))
        = some ((List.range (n + 1)).map
          (fun i : Nat => (w + (i : Int), f (w + (i : Int)))))
    congr 1
    rw [List.range_succ_eq_map, List.map_cons, List.map_map]
    congr 1
    · simp
    · refine List.map_congr_left ?_
      intro i _
      show (w + 1 + (i : Int), f (w + 1 + (i : Int)))
          = (w + ((Nat.succ i : Nat) : Int), f (w + ((Nat.succ i : Nat) : Int)))
      have harr : w + ((Nat.succ i : Nat) : Int) = w + 1 + (i : Int) := by
        push_cast
        ring
      rw [harr]

theorem mem_intRange (lo hi w : Int) : w ∈ intRange lo hi ↔ lo ≤ w ∧ w ≤ hi := by
  unfold intRange
  constructor
  · intro hw
    obtain ⟨i, hi, rfl⟩ := List.mem_map.mp hw
    have h2 := List.mem_range.mp hi
    omega
  · rintro ⟨h1, h2⟩
    refine List.mem_map.mpr ⟨(w - lo).toNat, List.mem_range.mpr ?_, ?_⟩
    · omega
    · omega

/-- Claim C8: when every measurement in the range succeeds, the loop records a
measured width at every integer viewport width from minViewport to maxViewport
inclusive in steps of one, and the domain of the profile is exactly that
contiguous range, with no gaps. -/
theorem c8_profile_domain_contiguous (measure : Int → Option Nat) (f : Int → Nat)
    (lo hi : Int) (hle : lo ≤ hi)
    (hm : ∀ w : Int, lo ≤ w → w ≤ hi → measure w = some (f w)) :
    imageWidths measure lo hi
        = some ((intRange lo hi).map (fun w => (w, f w)))
      ∧ ((intRange lo hi).map (fun w => (w, f w))).map Prod.fst = intRange lo hi
      ∧ ∀ w : Int, w ∈ intRange lo hi ↔ lo ≤ w ∧ w ≤ hi := by
  refine ⟨?_, ?_, fun w => mem_intRange lo hi w⟩
  · unfold imageWidths intRange
    rw [imageWidthsGo_spec measure f _ lo ?_]
    · rw [List.map_map]
      rfl
    · intro i hi2
      apply hm <;> omega
  · have hcomp : (Prod.fst ∘ fun w : Int => (w, f w)) = id := rfl
    rw [List.map_map, hcomp, List.map_id]

/-- Witness for c8_profile_domain_contiguous on the range 2..4. -/
theorem c8_profile_domain_contiguous_witness :
    ((2 : Int) ≤ 4
      ∧ ∀ w : Int, 2 ≤ w → w ≤ 4 →
          (fun v : Int => some (v.toNat * 3)) w = some ((fun v : Int => v.toNat * 3) w))
      ∧ (imageWidths (fun v : Int => some (v.toNat * 3)) 2 4
            = some ((intRange 2 4).map (fun w => (w, (fun v : Int => v.toNat * 3) w)))
          ∧ ((intRange 2 4).map
              (fun w => (w, (fun v : Int => v.toNat * 3) w))).map Prod.fst = intRange 2 4
          ∧ ∀ w : Int, w ∈ intRange 2 4 ↔ 2 ≤ w ∧ w ≤ 4) :=
  ⟨⟨by decide, fun w _ _ => rfl⟩,
    c8_profile_domain_contiguous (fun v : Int => some (v.toNat * 3))
      (fun v : Int => v.toNat * 3) 2 4 (by decide) (fun w _ _ => rfl)⟩
